import Mathlib

/-!
Verification of the MCP host in `src/mcp/client.py` (class `MCPClient`):
a shallow embedding of `connect_to_server` and `process_query`, together
with theorems settling the specification's claims about tool registration,
the turn loop, tool dispatch, result normalization and error handling.

External effects (child processes, the model backend, tool servers) are
modelled as explicit parameters: the model backend is a script of
responses consumed in order, and each session's `call_tool` is a function
that either returns a result or raises (modelled with `Except`).
-/

namespace MCPHost

/-- A session is identified by the server script path that launched it
(`self.sessions` is keyed by `server_script_path` in the source). -/
abbrev SessionId := String

/-- One content part of a tool-call result (`result.content` element).
`text` models the optional `text` attribute read by
`getattr(content, 'text', str(content))`; `str` models `str(content)`. -/
structure Part where
  text : Option String
  str : String
deriving Repr, DecidableEq

/-- The value returned by `session.call_tool`: `result.content` may be
absent (`none`) or a list of parts. -/
structure CallToolResult where
  content : Option (List Part)
deriving Repr, DecidableEq

/-- A content block of a model response, as classified by the
`content.type == 'text'` / `'tool_use'` branches of `process_query`. -/
inductive ContentBlock where
  | text (t : String)
  | toolUse (id : String) (name : String) (input : String)
deriving Repr, DecidableEq

/-- One `{"type": "tool_result", "tool_use_id": ..., "content": ...}`
dictionary built by the tool-execution loop. -/
structure ToolResultBlock where
  tool_use_id : String
  content : String
deriving Repr, DecidableEq

/-- One entry of `self.conversation_history`: the initial user query turn,
an assistant turn holding the response blocks, or the user turn holding
the collected tool results. -/
inductive Turn where
  | user (q : String)
  | assistant (blocks : List ContentBlock)
  | userResults (results : List ToolResultBlock)
deriving Repr, DecidableEq

/-- A tool descriptor `{"name", "description", "input_schema"}` as built
in `connect_to_server`. -/
structure ToolDescriptor where
  name : String
  description : String
  input_schema : String
deriving Repr, DecidableEq

/-- The mutable state of the `MCPClient` host object. -/
structure HostState where
  sessions : List (String × SessionId)
  tool_to_session_map : List (String × SessionId)
  tools : List ToolDescriptor
deriving Repr, DecidableEq

/-- The state built by `MCPClient.__init__`: all three containers empty. -/
def hostInit : HostState := ⟨[], [], []⟩

/-- External side effects performed by `connect_to_server`, recorded as a
trace: launching the child process, the protocol handshake
(`session.initialize()`), and the capability query (`session.list_tools()`). -/
inductive Effect where
  | launchProcess (command : String) (path : String)
  | handshake
  | listTools
deriving Repr, DecidableEq

/-- Python `dict` assignment `m[k] = v`: replaces the value at an existing
key, otherwise appends the new binding. -/
def dictInsert {α : Type} : List (String × α) → String → α → List (String × α)
  | [], k, v => [(k, v)]
  | (k', v') :: rest, k, v =>
    if k' = k then (k, v) :: rest else (k', v') :: dictInsert rest k v

/-- Python `dict.get(k)`: the value bound to `k`, or `none`. -/
def dictGet {α : Type} : List (String × α) → String → Option α
  | [], _ => none
  | (k', v') :: rest, k => if k' = k then some v' else dictGet rest k

/-- The registration loop of `connect_to_server`: for each tool of the
server, append it to `self.tools` and record `tool_to_session_map[name] =
session` (a plain dict assignment, silently overwriting). -/
def registerTools (st : HostState) (sess : SessionId) (ts : List ToolDescriptor) : HostState :=
  ts.foldl
    (fun st tool =>
      { st with
        tools := st.tools ++ [tool],
        tool_to_session_map := dictInsert st.tool_to_session_map tool.name sess })
    st

/-- Python `str.endswith(suffix)`: suffix test on the character
sequence. -/
def endswith (s suffix : String) : Bool :=
  suffix.data.isSuffixOf s.data

/-- `MCPClient.connect_to_server`, with the server's advertised tool list
supplied as a parameter (the outcome of the external `list_tools` call).
Returns the updated host state (or the raised `ValueError`) together with
the trace of external effects performed. -/
def connect_to_server (st : HostState) (server_script_path : String)
    (serverTools : List ToolDescriptor) : Except String HostState × List Effect :=
  let is_python := endswith server_script_path ".py"
  let is_js := endswith server_script_path ".js"
  if ¬ (is_python ∨ is_js) then
    (Except.error "server script must be .py or .js", [])
  else
    let command := if is_python then "python" else "node"
    let st1 : HostState := { st with sessions := dictInsert st.sessions server_script_path server_script_path }
    let st2 := registerTools st1 server_script_path serverTools
    (Except.ok st2,
     [Effect.launchProcess command server_script_path, Effect.handshake, Effect.listTools])

/-- The startup loop of `main`: connect to each configured server in
order; a single failure aborts the whole startup. -/
def connectAll (st : HostState) : List (String × List ToolDescriptor) → Except String HostState
  | [] => Except.ok st
  | (p, ts) :: rest =>
    match (connect_to_server st p ts).1 with
    | Except.error e => Except.error e
    | Except.ok st' => connectAll st' rest

/-- The classification loop of `process_query`: every `text` or
`tool_use` block is appended to `assistant_content`, in response order. -/
def assistantContent : List ContentBlock → List ContentBlock
  | [] => []
  | c :: rest =>
    match c with
    | ContentBlock.text _ => c :: assistantContent rest
    | ContentBlock.toolUse _ _ _ => c :: assistantContent rest

/-- The texts appended to `log_parts` by the classification loop:
the `text` field of each `text` block, in response order. -/
def textLog : List ContentBlock → List String
  | [] => []
  | ContentBlock.text t :: rest => t :: textLog rest
  | ContentBlock.toolUse _ _ _ :: rest => textLog rest

/-- `tool_calls_to_execute`: the `tool_use` blocks of a response, in
response order. -/
def toolCalls : List ContentBlock → List ContentBlock
  | [] => []
  | ContentBlock.text _ :: rest => toolCalls rest
  | ContentBlock.toolUse i n inp :: rest => ContentBlock.toolUse i n inp :: toolCalls rest

/-- The correlation ids of the `tool_use` blocks of a block list, in
order. -/
def useIds : List ContentBlock → List String
  | [] => []
  | ContentBlock.text _ :: rest => useIds rest
  | ContentBlock.toolUse i _ _ :: rest => i :: useIds rest

/-- The `tool_use_id` fields of a tool-result list, in order. -/
def resultIds (rs : List ToolResultBlock) : List String :=
  rs.map ToolResultBlock.tool_use_id

/-- `getattr(content, 'text', str(content))`: the part's `text`
attribute when present, otherwise its structural string form. -/
def partToText (p : Part) : String :=
  p.text.getD p.str

/-- Result normalization in `process_query` (lines 107–111 of the
source): build `result_content` by reducing each part to text, then
newline-join, with the literal `"no result"` for an empty list. -/
def normalizeContent (c : Option (List Part)) : String :=
  let result_content : List String :=
    match c with
    | none => []
    | some ps => ps.foldl (fun acc p => acc ++ [partToText p]) []
  if result_content.isEmpty then "no result" else String.intercalate "\n" result_content

/-- The behaviour of every session's `call_tool`, as seen by the host:
given the owning session, the tool name and the input, either a result or
a raised exception (`Except.error`). -/
abbrev CallToolFn := SessionId → String → String → Except String CallToolResult

/-- Dispatch of one `tool_use` block (lines 98–111 of the source): resolve
the session via `tool_to_session_map.get`; if absent, produce the
`"Error: Tool '...' not found."` result text; otherwise call the tool —
an exception from `call_tool` is NOT caught here and propagates. -/
def dispatchToolCall (map : List (String × SessionId)) (ct : CallToolFn)
    (id name input : String) : Except String ToolResultBlock :=
  match dictGet map name with
  | none => Except.ok ⟨id, "Error: Tool '" ++ name ++ "' not found."⟩
  | some sid =>
    match ct sid name input with
    | Except.error e => Except.error e
    | Except.ok result => Except.ok ⟨id, normalizeContent result.content⟩

/-- The `"CALLING TOOL: ... WITH ..."` log line appended before each
dispatch. -/
def callLogLine (name input : String) : String :=
  "CALLING TOOL: " ++ name ++ " WITH " ++ input

/-- The tool-execution loop of `process_query`: dispatch each queued
`tool_use` block sequentially, in emission order, collecting the log
lines and one tool result per block; a raised exception aborts the loop
and propagates. -/
def runToolCalls (map : List (String × SessionId)) (ct : CallToolFn) :
    List ContentBlock → Except String (List String × List ToolResultBlock)
  | [] => Except.ok ([], [])
  | ContentBlock.text _ :: rest => runToolCalls map ct rest
  | ContentBlock.toolUse id name input :: rest =>
    match dispatchToolCall map ct id name input with
    | Except.error e => Except.error e
    | Except.ok r =>
      match runToolCalls map ct rest with
      | Except.error e => Except.error e
      | Except.ok (logs, results) => Except.ok (callLogLine name input :: logs, r :: results)

/-- The outcome of one `process_query` call: the final conversation
history, the accumulated `log_parts`, and the trace of histories sent to
the model backend (one entry per model call). -/
structure QueryResult where
  history : List Turn
  log : List String
  modelCalls : List (List Turn)
deriving Repr, DecidableEq

/-- The `while True` turn loop of `process_query`. The model backend is a
script of responses consumed in order (an exhausted script, a modelling
artifact, is an error). Each iteration: call the model on the current
history, classify the blocks, append the assistant turn, stop if no tool
calls were queued, otherwise execute them and append the results turn. -/
def processQueryLoop (map : List (String × SessionId)) (ct : CallToolFn) :
    List (List ContentBlock) → List Turn → Except String QueryResult
  | [], _ => Except.error "model backend gave no response"
  | response :: script, history =>
    let ac := assistantContent response
    let history2 := history ++ [Turn.assistant ac]
    if (toolCalls response).isEmpty then
      Except.ok ⟨history2, textLog response, [history]⟩
    else
      match runToolCalls map ct (toolCalls response) with
      | Except.error e => Except.error e
      | Except.ok (callLogs, results) =>
        match processQueryLoop map ct script (history2 ++ [Turn.userResults results]) with
        | Except.error e => Except.error e
        | Except.ok r => Except.ok ⟨r.history, textLog response ++ callLogs ++ r.log, history :: r.modelCalls⟩

/-- `MCPClient.process_query`: append the user query turn to the pending
conversation history and run the turn loop. Returns the final internal
state together with the function's return value, the newline-joined
`log_parts`. -/
def process_query (map : List (String × SessionId)) (ct : CallToolFn)
    (script : List (List ContentBlock)) (pending : List Turn) (query : String) :
    Except String (QueryResult × String) :=
  match processQueryLoop map ct script (pending ++ [Turn.user query]) with
  | Except.error e => Except.error e
  | Except.ok r => Except.ok (r, String.intercalate "\n" r.log)

/-- The `"CALLING TOOL: ..."` log lines produced for the `tool_use`
blocks of a block list, in order. -/
def callLines : List ContentBlock → List String
  | [] => []
  | ContentBlock.text _ :: rest => callLines rest
  | ContentBlock.toolUse _ name input :: rest => callLogLine name input :: callLines rest

/-- Check that the turn list begins with a user turn holding exactly the
tool results answering the `tool_use` blocks of `bs`, correlated by id
and in the same order. -/
def pairOk (bs : List ContentBlock) : List Turn → Bool
  | Turn.userResults rs :: _ => decide (resultIds rs = useIds bs)
  | _ => false

/-- The turn-pairing check: every assistant turn holding at least one
`tool_use` block is immediately followed by a user turn holding exactly
the matching tool results, correlated by id and in the same order. -/
def pairedFrom : List Turn → Bool
  | [] => true
  | Turn.user _ :: rest => pairedFrom rest
  | Turn.userResults _ :: rest => pairedFrom rest
  | Turn.assistant bs :: rest =>
    ((toolCalls bs).isEmpty || pairOk bs rest) && pairedFrom rest

/-- The normalization rule exactly as the specification words it, for
comparison with the source-embedded `normalizeContent`: each part is
reduced to text (the `text` attribute verbatim when present, otherwise
the structural string form), parts are joined with newline, and an empty
or absent result list becomes the literal string `"no result"`. -/
def specResultText : Option (List Part) → String
  | none => "no result"
  | some [] => "no result"
  | some (p :: ps) => String.intercalate "\n" ((p :: ps).map fun q => q.text.getD q.str)

/-- A registry with two tools owned by two servers, for concrete runs. -/
def sampleMap : List (String × SessionId) := [("A", "a.py"), ("B", "b.py")]

/-- A `call_tool` behaviour that always succeeds with one text part. -/
def sampleCt : CallToolFn := fun sid name _ =>
  Except.ok ⟨some [⟨some ("ran " ++ name ++ " on " ++ sid), "part"⟩]⟩

/-- A `call_tool` behaviour that always raises. -/
def errCt : CallToolFn := fun _ _ _ => Except.error "boom"

/-- A scripted model: first response queues tools `A` then `B`, second
response is tool-free text. -/
def sampleScript : List (List ContentBlock) :=
  [[ContentBlock.text "thinking", ContentBlock.toolUse "i1" "A" "x",
    ContentBlock.toolUse "i2" "B" "y"],
   [ContentBlock.text "done"]]

/-- The outcome of `process_query sampleMap sampleCt sampleScript [] "q"`. -/
def sampleRun : QueryResult × String :=
  (⟨[Turn.user "q",
     Turn.assistant [ContentBlock.text "thinking", ContentBlock.toolUse "i1" "A" "x",
       ContentBlock.toolUse "i2" "B" "y"],
     Turn.userResults [⟨"i1", "ran A on a.py"⟩, ⟨"i2", "ran B on b.py"⟩],
     Turn.assistant [ContentBlock.text "done"]],
    ["thinking", "CALLING TOOL: A WITH x", "CALLING TOOL: B WITH y", "done"],
    [[Turn.user "q"],
     [Turn.user "q",
      Turn.assistant [ContentBlock.text "thinking", ContentBlock.toolUse "i1" "A" "x",
        ContentBlock.toolUse "i2" "B" "y"],
      Turn.userResults [⟨"i1", "ran A on a.py"⟩, ⟨"i2", "ran B on b.py"⟩]]]⟩,
   "thinking\nCALLING TOOL: A WITH x\nCALLING TOOL: B WITH y\ndone")

/-- The outcome of running the two sample tool calls through the
tool-execution loop. -/
def sampleToolRun : List String × List ToolResultBlock :=
  (["CALLING TOOL: A WITH x", "CALLING TOOL: B WITH y"],
   [⟨"i1", "ran A on a.py"⟩, ⟨"i2", "ran B on b.py"⟩])

/-- The outcome of a tool-free query issued on top of a six-turn pending
history. -/
def noTrimRun : QueryResult × String :=
  (⟨List.replicate 6 (Turn.user "old") ++
      [Turn.user "q", Turn.assistant [ContentBlock.text "hi"]],
    ["hi"],
    [List.replicate 6 (Turn.user "old") ++ [Turn.user "q"]]⟩,
   "hi")

/-- Tool list of the first sample server: one tool named `t`. -/
def sampleTools1 : List ToolDescriptor := [⟨"t", "d1", "s"⟩]

/-- Tool list of the second sample server: another tool also named `t`. -/
def sampleTools2 : List ToolDescriptor := [⟨"t", "d2", "s"⟩]

/-- The host state after connecting the two sample servers that both
export a tool named `t`. -/
def sampleHost2 : HostState :=
  ⟨[("a.py", "a.py"), ("b.py", "b.py")],
   [("t", "b.py")],
   [⟨"t", "d1", "s"⟩, ⟨"t", "d2", "s"⟩]⟩

theorem assistantContent_eq (bs : List ContentBlock) : assistantContent bs = bs := by
  induction bs with
  | nil => rfl
  | cons c rest ih => cases c <;> simp [assistantContent, ih]

theorem useIds_toolCalls (bs : List ContentBlock) : useIds (toolCalls bs) = useIds bs := by
  induction bs with
  | nil => rfl
  | cons c rest ih => cases c <;> simp [toolCalls, useIds, ih]

theorem dictGet_dictInsert_self {α : Type} (m : List (String × α)) (k : String) (v : α) :
    dictGet (dictInsert m k v) k = some v := by
  induction m with
  | nil => simp [dictInsert, dictGet]
  | cons q rest ih =>
    obtain ⟨k', v'⟩ := q
    by_cases h : k' = k
    · simp [dictInsert, dictGet, h]
    · simp [dictInsert, dictGet, h, ih]

theorem dictGet_dictInsert_ne {α : Type} (m : List (String × α)) (k : String) (v : α)
    (n : String) (hn : n ≠ k) : dictGet (dictInsert m k v) n = dictGet m n := by
  induction m with
  | nil => simp [dictInsert, dictGet, Ne.symm hn]
  | cons q rest ih =>
    obtain ⟨k', v'⟩ := q
    by_cases h : k' = k
    · subst h
      simp [dictInsert, dictGet, Ne.symm hn]
    · by_cases h' : k' = n
      · simp [dictInsert, dictGet, h, h', hn]
      · simp [dictInsert, dictGet, h, h', ih]

theorem registerTools_nil (st : HostState) (s : SessionId) : registerTools st s [] = st := rfl

theorem registerTools_cons (st : HostState) (s : SessionId) (t : ToolDescriptor)
    (ts : List ToolDescriptor) :
    registerTools st s (t :: ts) =
      registerTools
        { st with
          tools := st.tools ++ [t],
          tool_to_session_map := dictInsert st.tool_to_session_map t.name s } s ts := rfl

theorem registerTools_tools (ts : List ToolDescriptor) :
    ∀ (st : HostState) (s : SessionId), (registerTools st s ts).tools = st.tools ++ ts := by
  induction ts with
  | nil => intro st s; simp [registerTools_nil]
  | cons t rest ih =>
    intro st s
    rw [registerTools_cons, ih]
    simp

theorem registerTools_map_not_mem (ts : List ToolDescriptor) :
    ∀ (st : HostState) (s : SessionId) (n : String), n ∉ ts.map ToolDescriptor.name →
      dictGet (registerTools st s ts).tool_to_session_map n =
        dictGet st.tool_to_session_map n := by
  induction ts with
  | nil => intro st s n _; rfl
  | cons t rest ih =>
    intro st s n h
    simp only [List.map_cons, List.mem_cons, not_or] at h
    rw [registerTools_cons, ih _ s n h.2]
    exact dictGet_dictInsert_ne _ _ _ _ h.1

theorem registerTools_map_of_mem (ts : List ToolDescriptor) :
    ∀ (st : HostState) (s : SessionId) (n : String), n ∈ ts.map ToolDescriptor.name →
      dictGet (registerTools st s ts).tool_to_session_map n = some s := by
  induction ts with
  | nil => intro st s n h; simp at h
  | cons t rest ih =>
    intro st s n h
    by_cases hm : n ∈ rest.map ToolDescriptor.name
    · rw [registerTools_cons]
      exact ih _ s n hm
    · have hn : n = t.name := by
        simp only [List.map_cons, List.mem_cons] at h
        rcases h with h | h
        · exact h
        · exact absurd h hm
      rw [registerTools_cons, registerTools_map_not_mem rest _ s n hm, hn]
      exact dictGet_dictInsert_self _ _ _

theorem foldl_parts (ps : List Part) :
    ∀ acc : List String,
      ps.foldl (fun a p => a ++ [partToText p]) acc = acc ++ ps.map partToText := by
  induction ps with
  | nil => intro acc; simp
  | cons p rest ih => intro acc; simp [List.foldl_cons, ih]

theorem normalizeContent_eq_spec (c : Option (List Part)) :
    normalizeContent c = specResultText c := by
  cases c with
  | none => rfl
  | some ps =>
    cases ps with
    | nil => rfl
    | cons p rest =>
      simp only [normalizeContent, foldl_parts]
      simp [specResultText, partToText]
      rfl

theorem dispatchToolCall_ok_id {map : List (String × SessionId)} {ct : CallToolFn}
    {id name input : String} {r : ToolResultBlock}
    (h : dispatchToolCall map ct id name input = Except.ok r) : r.tool_use_id = id := by
  unfold dispatchToolCall at h
  split at h
  · cases h
    rfl
  · split at h
    · simp at h
    · cases h
      rfl

theorem runToolCalls_ok_spec {map : List (String × SessionId)} {ct : CallToolFn} :
    ∀ (tcs : List ContentBlock) (p : List String × List ToolResultBlock),
      runToolCalls map ct tcs = Except.ok p →
      resultIds p.2 = useIds tcs ∧ p.1 = callLines tcs := by
  intro tcs
  induction tcs with
  | nil =>
    intro p h
    simp only [runToolCalls] at h
    cases h
    simp [resultIds, useIds, callLines]
  | cons c rest ih =>
    intro p h
    cases c with
    | text t =>
      simp only [runToolCalls] at h
      have := ih p h
      simpa [useIds, callLines] using this
    | toolUse i n inp =>
      simp only [runToolCalls] at h
      cases hd : dispatchToolCall map ct i n inp with
      | error e => rw [hd] at h; simp at h
      | ok r =>
        rw [hd] at h
        cases hr : runToolCalls map ct rest with
        | error e => rw [hr] at h; simp at h
        | ok q =>
          obtain ⟨logs, results⟩ := q
          rw [hr] at h
          cases h
          have htail := ih (logs, results) hr
          have hid := dispatchToolCall_ok_id hd
          simp only [resultIds, List.map_cons, useIds, callLines]
          refine ⟨?_, ?_⟩
          · rw [hid]
            exact congrArg _ htail.1
          · exact congrArg _ htail.2

theorem pairOk_append {bs : List ContentBlock} {rest ys : List Turn}
    (h : pairOk bs rest = true) : pairOk bs (rest ++ ys) = true := by
  cases rest with
  | nil => simp [pairOk] at h
  | cons t rest2 =>
    cases t with
    | user q => simp [pairOk] at h
    | assistant bs2 => simp [pairOk] at h
    | userResults rs => simpa [pairOk] using h

theorem pairedFrom_append {xs ys : List Turn} (hx : pairedFrom xs = true)
    (hy : pairedFrom ys = true) : pairedFrom (xs ++ ys) = true := by
  induction xs with
  | nil => simpa using hy
  | cons t rest ih =>
    cases t with
    | user q =>
      simp only [pairedFrom] at hx
      simpa [pairedFrom] using ih hx
    | userResults rs =>
      simp only [pairedFrom] at hx
      simpa [pairedFrom] using ih hx
    | assistant bs =>
      simp only [pairedFrom, Bool.and_eq_true] at hx
      simp only [List.cons_append, pairedFrom, Bool.and_eq_true]
      refine ⟨?_, ih hx.2⟩
      cases ho : (toolCalls bs).isEmpty with
      | true => simp
      | false =>
        have hp : pairOk bs rest = true := by
          have := hx.1
          rw [ho] at this
          simpa using this
        simp [pairOk_append hp]

theorem processQueryLoop_ok_paired {map : List (String × SessionId)} {ct : CallToolFn} :
    ∀ (script : List (List ContentBlock)) (history : List Turn) (r : QueryResult),
      pairedFrom history = true →
      processQueryLoop map ct script history = Except.ok r →
      pairedFrom r.history = true := by
  intro script
  induction script with
  | nil => intro history r _ h; simp [processQueryLoop] at h
  | cons response rest ih =>
    intro history r hp h
    simp only [processQueryLoop] at h
    by_cases he : (toolCalls response).isEmpty = true
    · rw [if_pos he] at h
      cases h
      show pairedFrom (history ++ [Turn.assistant (assistantContent response)]) = true
      rw [assistantContent_eq]
      apply pairedFrom_append hp
      simp [pairedFrom, he]
    · rw [if_neg he] at h
      cases hr : runToolCalls map ct (toolCalls response) with
      | error e => rw [hr] at h; simp at h
      | ok q =>
        obtain ⟨callLogs, results⟩ := q
        rw [hr] at h
        dsimp only at h
        cases hl : processQueryLoop map ct rest
            (history ++ [Turn.assistant (assistantContent response)] ++
              [Turn.userResults results]) with
        | error e => rw [hl] at h; simp at h
        | ok r2 =>
          rw [hl] at h
          cases h
          show pairedFrom r2.history = true
          refine ih _ r2 ?_ hl
          rw [assistantContent_eq, List.append_assoc]
          apply pairedFrom_append hp
          have hids := (runToolCalls_ok_spec _ _ hr).1
          simp [pairedFrom, pairOk, hids, useIds_toolCalls]

theorem processQueryLoop_ok_firstCall {map : List (String × SessionId)} {ct : CallToolFn}
    {script : List (List ContentBlock)} {history : List Turn} {r : QueryResult}
    (h : processQueryLoop map ct script history = Except.ok r) :
    r.modelCalls.head? = some history := by
  cases script with
  | nil => simp [processQueryLoop] at h
  | cons response rest =>
    simp only [processQueryLoop] at h
    by_cases he : (toolCalls response).isEmpty = true
    · rw [if_pos he] at h
      cases h
      rfl
    · rw [if_neg he] at h
      cases hr : runToolCalls map ct (toolCalls response) with
      | error e => rw [hr] at h; simp at h
      | ok q =>
        obtain ⟨callLogs, results⟩ := q
        rw [hr] at h
        dsimp only at h
        cases hl : processQueryLoop map ct rest
            (history ++ [Turn.assistant (assistantContent response)] ++
              [Turn.userResults results]) with
        | error e => rw [hl] at h; simp at h
        | ok r2 =>
          rw [hl] at h
          cases h
          rfl

theorem connect_to_server_ok {st : HostState} {p : String} {ts : List ToolDescriptor}
    (h : endswith p ".py" = true ∨ endswith p ".js" = true) :
    (connect_to_server st p ts).1 =
      Except.ok (registerTools { st with sessions := dictInsert st.sessions p p } p ts) := by
  rcases h with h | h <;> simp [connect_to_server, h]

theorem connect_to_server_ok_tools {st : HostState} {p : String} {ts : List ToolDescriptor}
    {st' : HostState} (h : (connect_to_server st p ts).1 = Except.ok st') :
    st'.tools = st.tools ++ ts := by
  unfold connect_to_server at h
  dsimp only at h
  split at h
  · simp at h
  · simp only at h
    cases h
    rw [registerTools_tools]

theorem connect_to_server_ok_map_of_mem {st : HostState} {p : String}
    {ts : List ToolDescriptor} {st' : HostState} {n : String}
    (h : (connect_to_server st p ts).1 = Except.ok st')
    (hm : n ∈ ts.map ToolDescriptor.name) :
    dictGet st'.tool_to_session_map n = some p := by
  unfold connect_to_server at h
  dsimp only at h
  split at h
  · simp at h
  · simp only at h
    cases h
    exact registerTools_map_of_mem ts _ p n hm

theorem connectAll_tools :
    ∀ (specs : List (String × List ToolDescriptor)) (st st' : HostState),
      connectAll st specs = Except.ok st' →
      st'.tools = st.tools ++ (specs.map Prod.snd).flatten := by
  intro specs
  induction specs with
  | nil =>
    intro st st' h
    simp only [connectAll] at h
    cases h
    simp
  | cons sp rest ih =>
    intro st st' h
    obtain ⟨p, ts⟩ := sp
    simp only [connectAll] at h
    cases hc : (connect_to_server st p ts).1 with
    | error e => rw [hc] at h; simp at h
    | ok st1 =>
      rw [hc] at h
      dsimp only at h
      rw [ih st1 st' h, connect_to_server_ok_tools hc]
      simp

/-- C4: a `tool_use` block whose name has no owning session in the
registry is answered by a tool-result block for the same id whose content
is the deterministic message `Error: Tool '<name>' not found.`, and the
dispatcher returns normally (`Except.ok`, no exception) both for the
single dispatch and inside the tool-execution loop. -/
theorem missing_tool_soft_failure (map : List (String × SessionId)) (ct : CallToolFn)
    (id name input : String) (h : dictGet map name = none) :
    dispatchToolCall map ct id name input =
      Except.ok ⟨id, "Error: Tool '" ++ name ++ "' not found."⟩ ∧
    runToolCalls map ct [ContentBlock.toolUse id name input] =
      Except.ok ([callLogLine name input],
        [⟨id, "Error: Tool '" ++ name ++ "' not found."⟩]) := by
  have hd : dispatchToolCall map ct id name input =
      Except.ok ⟨id, "Error: Tool '" ++ name ++ "' not found."⟩ := by
    unfold dispatchToolCall
    rw [h]
  exact ⟨hd, by simp [runToolCalls, hd]⟩

theorem missing_tool_soft_failure_witness :
    dispatchToolCall [] sampleCt "i9" "ghost" "z" =
      Except.ok ⟨"i9", "Error: Tool '" ++ "ghost" ++ "' not found."⟩ ∧
    runToolCalls [] sampleCt [ContentBlock.toolUse "i9" "ghost" "z"] =
      Except.ok ([callLogLine "ghost" "z"],
        [⟨"i9", "Error: Tool '" ++ "ghost" ++ "' not found."⟩]) :=
  missing_tool_soft_failure [] sampleCt "i9" "ghost" "z" (by rfl)

/-- C5: a successful tool call is normalized exactly as the spec's rule
words it (`specResultText`): one string per content part — the `text`
attribute verbatim when the part carries one, else its structural string
form — joined with newline, and an empty or absent content list becomes
the literal string `"no result"`. -/
theorem tool_result_normalization (map : List (String × SessionId)) (ct : CallToolFn)
    (id name input : String) (sid : SessionId) (res : CallToolResult)
    (h1 : dictGet map name = some sid) (h2 : ct sid name input = Except.ok res) :
    dispatchToolCall map ct id name input = Except.ok ⟨id, specResultText res.content⟩ := by
  unfold dispatchToolCall
  rw [h1]
  dsimp only
  rw [h2]
  dsimp only
  rw [normalizeContent_eq_spec]

theorem tool_result_normalization_witness :
    dispatchToolCall sampleMap sampleCt "i1" "A" "x" =
      Except.ok ⟨"i1",
        specResultText (some [⟨some "ran A on a.py", "part"⟩])⟩ :=
  tool_result_normalization sampleMap sampleCt "i1" "A" "x" "a.py"
    ⟨some [⟨some "ran A on a.py", "part"⟩]⟩ (by rfl) (by rfl)

/-- C6: the tool-execution loop is sequential and order-preserving:
whenever it completes, the tool-result blocks carry exactly the
correlation ids of the queued `tool_use` blocks, in the order the model
emitted them, and the call log lines appear in that same order — so for a
response requesting `[A, B]`, A's result precedes B's. -/
theorem sequential_tool_order (map : List (String × SessionId)) (ct : CallToolFn)
    (tcs : List ContentBlock) (p : List String × List ToolResultBlock)
    (h : runToolCalls map ct tcs = Except.ok p) :
    resultIds p.2 = useIds tcs ∧ p.1 = callLines tcs :=
  runToolCalls_ok_spec tcs p h

theorem sequential_tool_order_witness :
    resultIds sampleToolRun.2 =
      useIds [ContentBlock.toolUse "i1" "A" "x", ContentBlock.toolUse "i2" "B" "y"] ∧
    sampleToolRun.1 =
      callLines [ContentBlock.toolUse "i1" "A" "x", ContentBlock.toolUse "i2" "B" "y"] :=
  sequential_tool_order sampleMap sampleCt
    [ContentBlock.toolUse "i1" "A" "x", ContentBlock.toolUse "i2" "B" "y"]
    sampleToolRun (by rfl)

/-- C8: when two servers registered in sequence both export a tool with
the same name, both registrations succeed without any error, and
afterwards resolving that name yields the session of the later-registered
server — the earlier mapping is silently overwritten. -/
theorem duplicate_tool_name_last_wins (st : HostState) (p1 p2 n : String)
    (ts1 ts2 : List ToolDescriptor)
    (hv1 : endswith p1 ".py" = true ∨ endswith p1 ".js" = true)
    (hv2 : endswith p2 ".py" = true ∨ endswith p2 ".js" = true)
    (hne : p1 ≠ p2)
    (_hm1 : n ∈ ts1.map ToolDescriptor.name)
    (hm2 : n ∈ ts2.map ToolDescriptor.name) :
    ∃ st1 st2 : HostState,
      (connect_to_server st p1 ts1).1 = Except.ok st1 ∧
      (connect_to_server st1 p2 ts2).1 = Except.ok st2 ∧
      dictGet st2.tool_to_session_map n = some p2 ∧
      dictGet st2.tool_to_session_map n ≠ some p1 := by
  refine ⟨_, _, connect_to_server_ok hv1, connect_to_server_ok hv2, ?_, ?_⟩
  · exact connect_to_server_ok_map_of_mem (connect_to_server_ok hv2) hm2
  · rw [connect_to_server_ok_map_of_mem (connect_to_server_ok hv2) hm2]
    intro hcon
    exact hne (Option.some.inj hcon).symm

theorem duplicate_tool_name_last_wins_witness :
    ∃ st1 st2 : HostState,
      (connect_to_server hostInit "a.py" sampleTools1).1 = Except.ok st1 ∧
      (connect_to_server st1 "b.py" sampleTools2).1 = Except.ok st2 ∧
      dictGet st2.tool_to_session_map "t" = some "b.py" ∧
      dictGet st2.tool_to_session_map "t" ≠ some "a.py" :=
  duplicate_tool_name_last_wins hostInit "a.py" "b.py" "t" sampleTools1 sampleTools2
    (Or.inl (by decide)) (Or.inl (by decide)) (by decide) (by decide) (by decide)

/-- C9: registration appends every descriptor of every connected server
to the flat `self.tools` catalog unconditionally, so after connecting a
sequence of servers the catalog is the concatenation of their descriptor
lists — its length is the sum of the servers' tool counts, not the size
of the name union, and a duplicated name appears once per registration. -/
theorem catalog_accumulates_duplicates (specs : List (String × List ToolDescriptor))
    (st' : HostState) (h : connectAll hostInit specs = Except.ok st') :
    st'.tools = (specs.map Prod.snd).flatten ∧
    st'.tools.length = (specs.map fun sp => sp.2.length).sum := by
  have h1 := connectAll_tools specs hostInit st' h
  simp only [hostInit, List.nil_append] at h1
  refine ⟨h1, ?_⟩
  rw [h1]
  simp [List.map_map, Function.comp_def]

theorem catalog_accumulates_duplicates_witness :
    sampleHost2.tools =
      (([("a.py", sampleTools1), ("b.py", sampleTools2)].map Prod.snd).flatten) ∧
    sampleHost2.tools.length =
      ([("a.py", sampleTools1), ("b.py", sampleTools2)].map fun sp => sp.2.length).sum :=
  catalog_accumulates_duplicates [("a.py", sampleTools1), ("b.py", sampleTools2)]
    sampleHost2 (by rfl)

/-- C10: for a server script path ending in neither `.py` nor `.js`,
`connect_to_server` raises the `ValueError` before performing any
external effect — no process launch, no handshake, no capability query —
and returns no new state, so the host state is untouched. -/
theorem malformed_spec_atomic_failure (st : HostState) (path : String)
    (ts : List ToolDescriptor) (h1 : endswith path ".py" = false)
    (h2 : endswith path ".js" = false) :
    connect_to_server st path ts =
      (Except.error "server script must be .py or .js", []) := by
  simp [connect_to_server, h1, h2]

theorem malformed_spec_atomic_failure_witness :
    connect_to_server hostInit "server.txt" sampleTools1 =
      (Except.error "server script must be .py or .js", []) :=
  malformed_spec_atomic_failure hostInit "server.txt" sampleTools1 (by decide) (by decide)

/-- C1: whenever `process_query` completes, the final conversation
history satisfies the turn-pairing check: every assistant turn holding
k ≥ 1 `tool_use` blocks is immediately followed by a single user turn
holding exactly k tool-result blocks — one per `tool_use` block,
correlated by id, in emission order — and nothing else (provided the
pending history it started from already satisfied the check). -/
theorem process_query_turn_pairing (map : List (String × SessionId)) (ct : CallToolFn)
    (script : List (List ContentBlock)) (pending : List Turn) (q : String)
    (p : QueryResult × String) (hp : pairedFrom pending = true)
    (h : process_query map ct script pending q = Except.ok p) :
    pairedFrom p.1.history = true := by
  unfold process_query at h
  cases hl : processQueryLoop map ct script (pending ++ [Turn.user q]) with
  | error e => rw [hl] at h; simp at h
  | ok r =>
    rw [hl] at h
    dsimp only at h
    cases h
    show pairedFrom r.history = true
    refine processQueryLoop_ok_paired script _ r ?_ hl
    exact pairedFrom_append hp rfl

theorem process_query_turn_pairing_witness :
    pairedFrom sampleRun.1.history = true :=
  process_query_turn_pairing sampleMap sampleCt sampleScript [] "q" sampleRun
    (by rfl) (by rfl)

/-- C2, counterexample: `process_query` performs no trimming at all.
With a configured maximum of N = 5 turns and a pending history of 6 user
turns (more than N), the history sent to the first model call has 7
turns, not at most 5 — refuting the claim that the retained history is
trimmed to at most N turns before the first model call. -/
theorem history_trim_counterexample :
    (process_query [] errCt [[ContentBlock.text "hi"]]
        (List.replicate 6 (Turn.user "old")) "q").map
        (fun p => p.1.modelCalls.map List.length) = Except.ok [7] ∧
    (List.replicate 6 (Turn.user "old") : List Turn).length = 6 ∧ ¬ (7 ≤ 5) := by
  exact ⟨by rfl, by rfl, by decide⟩

/-- C2, amended: the conversation history is never trimmed between
queries. At the start of `process_query` the new user turn is appended to
the entire pending history, and the history sent to the first model call
is exactly that un-trimmed history (`pending ++ [user query]`), whatever
its length; no maximum turn count exists in the code. -/
theorem history_no_trimming (map : List (String × SessionId)) (ct : CallToolFn)
    (script : List (List ContentBlock)) (pending : List Turn) (q : String)
    (p : QueryResult × String) (h : process_query map ct script pending q = Except.ok p) :
    p.1.modelCalls.head? = some (pending ++ [Turn.user q]) := by
  unfold process_query at h
  cases hl : processQueryLoop map ct script (pending ++ [Turn.user q]) with
  | error e => rw [hl] at h; simp at h
  | ok r =>
    rw [hl] at h
    dsimp only at h
    cases h
    exact processQueryLoop_ok_firstCall hl

theorem history_no_trimming_witness :
    noTrimRun.1.modelCalls.head? =
      some (List.replicate 6 (Turn.user "old") ++ [Turn.user "q"]) :=
  history_no_trimming [] errCt [[ContentBlock.text "hi"]]
    (List.replicate 6 (Turn.user "old")) "q" noTrimRun (by rfl)

/-- C3, counterexample: an exception raised by a session's `call_tool` is
not caught at the dispatch layer — here a registered tool `A` whose call
raises `"boom"` makes the whole `process_query` raise, instead of being
converted into an error-string tool result. -/
theorem tool_exception_escape_counterexample :
    process_query sampleMap errCt [[ContentBlock.toolUse "i1" "A" "x"]] [] "q" =
      Except.error "boom" := by rfl

/-- C3, amended: an exception raised by the session's `call_tool` for a
resolved tool is not caught anywhere in `process_query`: it aborts the
turn loop and propagates out of `process_query` unchanged (it is caught
only at the interactive chat-loop boundary), and no tool-result block is
produced for the failing call. -/
theorem tool_exception_propagates (map : List (String × SessionId)) (ct : CallToolFn)
    (sid : SessionId) (id name input e : String)
    (script : List (List ContentBlock)) (pending : List Turn) (q : String)
    (h1 : dictGet map name = some sid) (h2 : ct sid name input = Except.error e) :
    process_query map ct ([ContentBlock.toolUse id name input] :: script) pending q =
      Except.error e := by
  have hd : dispatchToolCall map ct id name input = Except.error e := by
    unfold dispatchToolCall
    rw [h1]
    dsimp only
    rw [h2]
  have hrun : runToolCalls map ct [ContentBlock.toolUse id name input] =
      Except.error e := by
    simp [runToolCalls, hd]
  simp [process_query, processQueryLoop, toolCalls, hrun]

theorem tool_exception_propagates_witness :
    process_query sampleMap errCt
        [[ContentBlock.toolUse "i2" "B" "y"], [ContentBlock.text "t"]] [] "p" =
      Except.error "boom" :=
  tool_exception_propagates sampleMap errCt "b.py" "i2" "B" "y" "boom"
    [[ContentBlock.text "t"]] [] "p" (by rfl) (by rfl)

/-- C7: when the model's first response contains zero `tool_use` blocks,
`process_query` terminates after that response: it performs exactly one
model call (the trace has one entry), appends the assistant turn
unconditionally, and returns the accumulated text log. -/
theorem terminates_on_tool_free_response (map : List (String × SessionId)) (ct : CallToolFn)
    (response : List ContentBlock) (rest : List (List ContentBlock))
    (pending : List Turn) (q : String) (h : toolCalls response = []) :
    process_query map ct (response :: rest) pending q =
      Except.ok
        (⟨pending ++ [Turn.user q, Turn.assistant response],
          textLog response,
          [pending ++ [Turn.user q]]⟩,
         String.intercalate "\n" (textLog response)) := by
  have he : (toolCalls response).isEmpty = true := by simp [h]
  simp [process_query, processQueryLoop, he, assistantContent_eq]

theorem terminates_on_tool_free_response_witness :
    process_query sampleMap sampleCt [[ContentBlock.text "hello"]] [] "q" =
      Except.ok
        (⟨[] ++ [Turn.user "q", Turn.assistant [ContentBlock.text "hello"]],
          textLog [ContentBlock.text "hello"],
          [([] : List Turn) ++ [Turn.user "q"]]⟩,
         String.intercalate "\n" (textLog [ContentBlock.text "hello"])) :=
  terminates_on_tool_free_response sampleMap sampleCt [ContentBlock.text "hello"] [] [] "q"
    (by rfl)

end MCPHost
